import Mathlib

/-!
A shallow embedding of the memory subsystem and the turn-processing agent of
the GradTrack repository (src/backend/memory.py and src/backend/agent.py),
in the fallback configuration that the specified claims address: no ChromaDB
collection (`self.collection is None`, so all storage and search go through
the `_fallback_memories` list) and the OpenAI completion backend modelled as
an explicit environment value.

Machine-level conventions of the embedding:
- Python strings are Lean `String`s; `str.split()` / `str.lower()` / slicing
  are re-implemented below on `String`.
- The float multiplier 1.3 of `get_relevant_context` is embedded as the exact
  rational 13/10; every comparison the code performs with it is of the form
  `estimate < max_tokens` far from any float-rounding boundary in the claims
  settled here.
- `datetime.now()` results are inputs: each storing operation receives the
  two formatted clock strings (`strftime` id format and `isoformat`) that the
  two `now()` calls in `store_memory` would produce.
- An uncaught Python exception is an `Except.error` value.
-/

set_option maxRecDepth 4000

namespace GradTrack

/-- Whitespace test used by Python `str.split()` (ASCII portion). -/
def isWsChar (c : Char) : Bool := c = ' ' || c = '\t' || c = '\n' || c = '\r'

/-- Word accumulator for `str.split()`: runs of whitespace separate words and
no empty words are produced.  The second argument holds the current word in
reverse. -/
def wordsAux : List Char → List Char → List (List Char)
  | [], cur => if cur.isEmpty then [] else [cur.reverse]
  | c :: cs, cur =>
    if isWsChar c then
      if cur.isEmpty then wordsAux cs [] else cur.reverse :: wordsAux cs []
    else wordsAux cs (c :: cur)

/-- Python `s.split()` (no separator argument). -/
def pyTokens (s : String) : List String := (wordsAux s.data []).map String.mk

/-- Python `len(s.split())`. -/
def wordCount (s : String) : Nat := (pyTokens s).length

/-- Python `s.lower()`. -/
def lowerStr (s : String) : String := String.mk (s.data.map Char.toLower)

/-- `needle` is a prefix of `hay` (on character lists). -/
def listIsPre : List Char → List Char → Bool
  | [], _ => true
  | _ :: _, [] => false
  | a :: as, b :: bs => a == b && listIsPre as bs

/-- `needle` occurs somewhere inside the character list. -/
def listIsSub (needle : List Char) : List Char → Bool
  | [] => needle.isEmpty
  | c :: cs => listIsPre needle (c :: cs) || listIsSub needle cs

/-- Python substring containment `needle in hay`. -/
def strContains (hay needle : String) : Bool := listIsSub needle.data hay.data

/-- Python `sep.join(parts)`. -/
def joinSep (sep : String) : List String → String
  | [] => ""
  | [s] => s
  | s :: rest => s ++ sep ++ joinSep sep rest

/-- Python `s.strip()` (whitespace strip at both ends). -/
def pyStrip (s : String) : String :=
  String.mk (((s.data.dropWhile isWsChar).reverse.dropWhile isWsChar).reverse)

/-- Python slicing `s[:n]` (by code point, like Lean character lists). -/
def pyTake (n : Nat) (s : String) : String := String.mk (s.data.take n)

/-- Python `l[-n:]`. -/
def takeLast {α : Type} (n : Nat) (l : List α) : List α := l.drop (l.length - n)

/-- Lookup in a Python dict modelled as an association list (first match),
Python `d.get(k)`. -/
def dget : List (String × String) → String → Option String
  | [], _ => none
  | p :: ps, k => if p.1 == k then some p.2 else dget ps k

/-- Python dict assignment `d[k] = v`: replace the (unique) existing binding
in place, or append a new one. -/
def dinsert : List (String × String) → String → String → List (String × String)
  | [], k, v => [(k, v)]
  | p :: ps, k, v => if p.1 == k then (k, v) :: ps else p :: dinsert ps k v

/-- Python `{**base, **m}` / building a dict literal and then spreading `m`
over it: later keys override earlier ones. -/
def dmerge (base m : List (String × String)) : List (String × String) :=
  m.foldl (fun acc p => dinsert acc p.1 p.2) base

/-- One entry of `MemoryManager._fallback_memories`:
`{"id": ..., "content": ..., "metadata": ...}`. -/
structure Mem where
  id : String
  content : String
  metadata : List (String × String)
deriving DecidableEq

/-- One entry of `MemoryManager.conversation_buffer`:
`{"role": ..., "content": ...}`. -/
structure ChatMsg where
  role : String
  content : String
deriving DecidableEq

/-- The mutable state of a `MemoryManager` in the fallback configuration:
the fallback store (append order) and the session conversation buffer. -/
structure MState where
  store : List Mem
  buffer : List ChatMsg
deriving DecidableEq

/-- A result dict of `_search_fallback`:
`{"content": ..., "metadata": ..., "id": ..., "score": ...}`. -/
structure SearchResult where
  content : String
  metadata : List (String × String)
  id : String
  score : ℚ
deriving DecidableEq

/-- `set(s.lower().split())` as used on the query and on each candidate body. -/
def tokenSet (s : String) : Finset String := (pyTokens (lowerStr s)).toFinset

/-- `len(query_words & content_words)`. -/
def overlapCount (qws : Finset String) (content : String) : Nat :=
  (qws ∩ tokenSet content).card

/-- The type filter of `_search_fallback`: skip the record when a type is
requested and `memory["metadata"].get("type")` differs. -/
def typePass (mtype : Option String) (m : Mem) : Bool :=
  match mtype with
  | none => true
  | some t => decide (dget m.metadata "type" = some t)

/-- A scored candidate.  `idx` records the candidate's position in the
fallback store so that the stability of Python `list.sort` can be stated;
it is bookkeeping only and is dropped from the returned results. -/
structure Scored where
  idx : Nat
  score : ℚ
  mem : Mem
deriving DecidableEq

/-- The scoring pass of `_search_fallback`, walking the store in storage
order: keep candidates that pass the type filter and have positive word
overlap with the query, scored `overlap / len(query_words)`.  The quotient is
written `mkRat` (the reduced fraction), which `mkRat_eq_natCast_div` below
identifies with rational division. -/
def scoreMems (qws : Finset String) (mtype : Option String) : Nat → List Mem → List Scored
  | _, [] => []
  | i, m :: ms =>
    if typePass mtype m ∧ 0 < overlapCount qws m.content then
      ⟨i, mkRat (overlapCount qws m.content) (qws.card), m⟩ :: scoreMems qws mtype (i + 1) ms
    else scoreMems qws mtype (i + 1) ms

/-- Insert into a descending-by-score list, after any entry of equal score:
the insertion step of a stable descending sort. -/
def pyInsert (x : Scored) : List Scored → List Scored
  | [] => [x]
  | y :: ys => if y.score < x.score then x :: y :: ys else y :: pyInsert x ys

/-- Python `scored_memories.sort(key=lambda x: x[0], reverse=True)`: a stable
sort, descending by score, equal scores keeping their original order. -/
def sortDesc (l : List Scored) : List Scored :=
  l.foldl (fun acc x => pyInsert x acc) []

/-- Shape of the returned result dict. -/
def untag (s : Scored) : SearchResult := ⟨s.mem.content, s.mem.metadata, s.mem.id, s.score⟩

/-- `MemoryManager._search_fallback` (memory.py lines 349-389): score the
store against `set(query.lower().split())`, stable-sort descending by score,
return the first `limit` results in the result-dict shape. -/
def searchFallback (store : List Mem) (query : String) (limit : Nat)
    (mtype : Option String) : List SearchResult :=
  ((sortDesc (scoreMems (tokenSet query) mtype 0 store)).take limit).map untag

/-- `MemoryManager.search_similar` in the fallback configuration
(`self.collection is None`): it delegates to `_search_fallback`. -/
def searchSimilar (st : MState) (query : String) (limit : Nat)
    (mtype : Option String) : List SearchResult :=
  searchFallback st.store query limit mtype

/-- `MemoryManager.store_memory` (memory.py lines 157-200), fallback path.
`tid` and `tiso` are the strings the two `datetime.now()` calls produce:
the `strftime("%Y%m%d_%H%M%S_%f")` id component and the `isoformat()`
timestamp. -/
def storeMemory (st : MState) (content memoryType : String)
    (metadata : List (String × String)) (sessionId tid tiso : String) :
    MState × String :=
  let memoryId := memoryType ++ "_" ++ tid
  let fullMetadata :=
    dmerge [("type", memoryType), ("session_id", sessionId), ("timestamp", tiso)] metadata
  ({ st with store := st.store ++ [⟨memoryId, content, fullMetadata⟩] }, memoryId)

/-- `MemoryManager.store_conversation` (memory.py lines 211-255). -/
def storeConversation (st : MState) (userMessage agentResponse : String)
    (toolsUsed : List String) (sessionId tid tiso : String) : MState × String :=
  let summary := "User: " ++ userMessage ++ "\nAssistant: " ++ agentResponse
  let metadata :=
    [("user_message", pyTake 500 userMessage),
     ("agent_response", pyTake 500 agentResponse),
     ("tools_used", joinSep "," toolsUsed)]
  let r := storeMemory st summary "conversation" metadata sessionId tid tiso
  let buf1 := r.1.buffer ++ [⟨"user", userMessage⟩, ⟨"assistant", agentResponse⟩]
  let buf2 := if buf1.length > 20 then buf1.drop (buf1.length - 20) else buf1
  ({ r.1 with buffer := buf2 }, r.2)

/-- The exact multiplier standing for the float literal 1.3 of
`get_relevant_context`. -/
def q13 : ℚ := 13 / 10

/-- The recent-conversation parts of `get_relevant_context`: header plus the
last six buffer messages, each body truncated to 300 characters. -/
def stage1Parts (buffer : List ChatMsg) (includeRecent : Bool) : List String :=
  if includeRecent ∧ buffer ≠ [] then
    "=== Recent Conversation ===" ::
      (takeLast 6 buffer).map
        (fun m => (if m.role = "user" then "User" else "You") ++ ": " ++ pyTake 300 m.content)
  else []

/-- The running estimate after the recent-conversation stage:
`sum(len(p.split()) for p in context_parts) * 1.3` (zero when the stage is
skipped, matching the code where the accumulation sits inside the guard). -/
def stage1Est (buffer : List ChatMsg) (includeRecent : Bool) : ℚ :=
  (((stage1Parts buffer includeRecent).map wordCount).sum : ℚ) * q13

/-- The per-item loop shared by the two retrieval stages: stop as soon as the
running estimate has reached the budget, otherwise append the item text and
add its weight to the estimate. -/
def addLoop (budget : ℚ) : List (String × ℚ) → List String × ℚ → List String × ℚ
  | [], acc => acc
  | (s, w) :: rest, acc =>
    if budget ≤ acc.2 then acc
    else addLoop budget rest (acc.1 ++ [s], acc.2 + w)

/-- Stage-2 items: each related conversation truncated to 400 characters,
weighted by the word count of the truncated text times 1.3. -/
def stage2Items (results : List SearchResult) : List (String × ℚ) :=
  results.map (fun r => (pyTake 400 r.content, (wordCount (pyTake 400 r.content) : ℚ) * q13))

/-- Stage-3 items: each preference truncated to 200 characters but weighted
by the word count of the untruncated content times 1.3, exactly as the code
does (`len(pref["content"].split())`, not the truncated slice). -/
def stage3Items (results : List SearchResult) : List (String × ℚ) :=
  results.map (fun r => (pyTake 200 r.content, (wordCount r.content : ℚ) * q13))

/-- The state (`context_parts`, running estimate) of `get_relevant_context`
after the related-conversations stage: entered only while the estimate is
strictly below the budget and something was retrieved. -/
def stage2State (st : MState) (query : String) (includeRecent : Bool) (maxTokens : ℚ) :
    List String × ℚ :=
  if stage1Est st.buffer includeRecent < maxTokens ∧
      searchSimilar st query 3 (some "conversation") ≠ [] then
    addLoop maxTokens (stage2Items (searchSimilar st query 3 (some "conversation")))
      (stage1Parts st.buffer includeRecent ++ ["\n=== Related Past Conversations ==="],
       stage1Est st.buffer includeRecent)
  else (stage1Parts st.buffer includeRecent, stage1Est st.buffer includeRecent)

/-- `MemoryManager.get_relevant_context` (memory.py lines 439-494), returning
the `context_parts` list together with the final running token estimate.
The include-essays flag is accepted and never read, as in the source. -/
def contextParts (st : MState) (query : String)
    (includeRecent includeEssays includePreferences : Bool) (maxTokens : ℚ) :
    List String × ℚ :=
  if includePreferences ∧ (stage2State st query includeRecent maxTokens).2 < maxTokens ∧
      searchSimilar st query 2 (some "preference") ≠ [] then
    addLoop maxTokens (stage3Items (searchSimilar st query 2 (some "preference")))
      ((stage2State st query includeRecent maxTokens).1 ++ ["\n=== User Preferences ==="],
       (stage2State st query includeRecent maxTokens).2)
  else stage2State st query includeRecent maxTokens

/-- The string `get_relevant_context` returns: `"\n".join(context_parts)`. -/
def getRelevantContext (st : MState) (query : String)
    (includeRecent includeEssays includePreferences : Bool) (maxTokens : ℚ) : String :=
  joinSep "\n" (contextParts st query includeRecent includeEssays includePreferences maxTokens).1

/-- Maximum of a list of rationals, at least zero. -/
def listMax0 : List ℚ → ℚ
  | [] => 0
  | w :: ws => max w (listMax0 ws)

/-- The largest single-item estimate any retrieval stage of
`get_relevant_context` could add for this state and query. -/
def maxItemEst (st : MState) (query : String) : ℚ :=
  listMax0 ((stage2Items (searchSimilar st query 3 (some "conversation"))).map Prod.snd ++
            (stage3Items (searchSimilar st query 2 (some "preference"))).map Prod.snd)

/-- A `DecisionOutcome` dict as built by the rule-based path (all keys
present). -/
structure Decision where
  useTool : Bool
  toolName : Option String
  toolParams : List (String × String)
  reasoning : String
deriving DecidableEq

/-- `app_keywords` of `_rule_based_decision`. -/
def appKeywords : List String :=
  ["add", "create", "new application", "track", "update", "status",
   "my applications", "delete", "remove", "list applications"]

/-- `research_keywords` of `_rule_based_decision`. -/
def researchKeywords : List String :=
  ["deadline", "requirement", "gre", "toefl", "tuition",
   "ranking", "faculty", "what does", "tell me about"]

/-- `essay_keywords` of `_rule_based_decision`. -/
def essayKeywords : List String :=
  ["essay", "sop", "statement of purpose", "analyze", "review my"]

/-- `task_keywords` of `_rule_based_decision`. -/
def taskKeywords : List String :=
  ["task", "to-do", "todo", "deadline", "due", "remind", "upcoming"]

/-- The hardcoded school list of the research branch. -/
def schoolsList : List String :=
  ["mit", "stanford", "berkeley", "cmu", "carnegie mellon", "georgia tech"]

/-- `any(kw in message_lower for kw in kws)`. -/
def containsAny (messageLower : String) (kws : List String) : Bool :=
  kws.any (fun kw => strContains messageLower kw)

/-- Action-verb extraction of the application branch: create beats update
beats delete beats the read default. -/
def appAction (ml : String) : String :=
  if containsAny ml ["add", "create", "new"] then "create"
  else if containsAny ml ["update", "change", "move"] then "update"
  else if containsAny ml ["delete", "remove"] then "delete"
  else "read"

/-- Action extraction of the task branch (default `list_tasks`). -/
def taskAction (ml : String) : String :=
  if containsAny ml ["upcoming", "due soon", "this week"] then "upcoming"
  else if containsAny ml ["create", "add", "new task"] then "create_task"
  else if containsAny ml ["complete", "done", "finish"] then "complete_task"
  else "list_tasks"

/-- `GradTrackAgent._rule_based_decision` (agent.py lines 276-359), scanning
the lowercased message against the four keyword sets in source order. -/
def ruleBasedDecision (userMessage : String) : Decision :=
  if containsAny (lowerStr userMessage) appKeywords then
    ⟨true, some "application_database", [("action", appAction (lowerStr userMessage))],
      "User wants to manage applications"⟩
  else if containsAny (lowerStr userMessage) researchKeywords then
    ⟨true, some "program_research",
      [("school", (schoolsList.find? (fun s => strContains (lowerStr userMessage) s)).getD "unknown"),
       ("program", "Computer Science"), ("info_type", "all")],
      "User wants program information"⟩
  else if containsAny (lowerStr userMessage) essayKeywords then
    ⟨true, some "essay_analyzer",
      [("essay_text", userMessage), ("analysis_type", "full")],
      "User wants essay feedback"⟩
  else if containsAny (lowerStr userMessage) taskKeywords then
    ⟨true, some "calendar_todo", [("action", taskAction (lowerStr userMessage))],
      "User wants to manage tasks"⟩
  else ⟨false, none, [], "General conversation - no tool needed"⟩

/-- The `data` fields that `_generate_fallback_response` reads from a tool
result payload (`applications` modelled by the length of the list the code
measures). -/
structure DataObj where
  applications : Option Nat
  deadline : Option String
  overallScore : Option String
deriving DecidableEq

/-- A tool execution result dict:
`{success, message?, data?, error?}`. -/
structure ToolResult where
  success : Bool
  message : Option String
  error : Option String
  data : DataObj
deriving DecidableEq

/-- The failure shape `{"success": False, "error": e}`. -/
def ToolResult.failure (e : String) : ToolResult := ⟨false, none, some e, ⟨none, none, none⟩⟩

/-- A registered tool: `execute(**args)` either returns a result dict or
raises, the raised exception carrying a message string. -/
def ToolHandler : Type := List (String × String) → Except String ToolResult

/-- `GradTrackAgent._execute_tool` (agent.py lines 361-380): unknown names
give a tagged failure, a raising handler is caught and converted to
`{"success": False, "error": str(e)}`. -/
def executeTool (tools : List (String × ToolHandler)) (name : String)
    (args : List (String × String)) : ToolResult :=
  match tools.find? (fun p => p.1 == name) with
  | none => ToolResult.failure ("Unknown tool: " ++ name)
  | some p =>
    match p.2 args with
    | .ok r => r
    | .error e => ToolResult.failure e

/-- Dispatch as reached from `process_message`, where `tool_name` came out of
a decision document and may be JSON null (Python `None`):
`self.tools.get(None)` misses every registered name and the f-string renders
`Unknown tool: None`. -/
def executeToolOpt (tools : List (String × ToolHandler)) (name : Option String)
    (args : List (String × String)) : ToolResult :=
  match name with
  | some n => executeTool tools n args
  | none => ToolResult.failure "Unknown tool: None"

/-- The dict `json.loads` produced for the decision, before any key is read:
a `none` field models that key being absent from the parsed object. -/
structure DecDoc where
  useToolKey : Option Bool
  toolNameKey : Option (Option String)
  toolParamsKey : Option (List (String × String))
  reasoningKey : Option String
deriving DecidableEq

/-- The rule-based decision always carries every key. -/
def Decision.toDoc (d : Decision) : DecDoc :=
  ⟨some d.useTool, some d.toolName, some d.toolParams, some d.reasoning⟩

/-- Outcome of the LLM decision call together with its parse pipeline:
either some exception was raised inside the `try` (network failure, or
`json.loads` failing on the reply), or a JSON object was obtained. -/
inductive LLMReply
  | exn
  | doc (d : DecDoc)

/-- The external collaborators of one `process_message` call: whether the
OpenAI client was constructed, the outcome of the decision call, the outcome
of the response-generation call, the tool registry, and the database summary
string. -/
structure Env where
  clientPresent : Bool
  decideReply : LLMReply
  respondReply : Except Unit String
  tools : List (String × ToolHandler)
  appSummary : String

/-- `GradTrackAgent._decide_tool_use` (agent.py lines 234-274): with no
client, or when the call / JSON parse raises, fall back to the rule-based
decision; otherwise return the parsed object as is, unvalidated. -/
def decideToolUse (env : Env) (userMessage : String) : DecDoc :=
  if env.clientPresent then
    match env.decideReply with
    | .exn => (ruleBasedDecision userMessage).toDoc
    | .doc d => d
  else (ruleBasedDecision userMessage).toDoc

/-- An uncaught Python exception. -/
inductive PyError
  | keyError (key : String)
deriving DecidableEq

/-- Python `d[k]` on the modelled dict: raises `KeyError` when absent. -/
def getKey {α : Type} (k : String) : Option α → Except PyError α
  | some v => .ok v
  | none => .error (.keyError k)

/-- The response fragments `_generate_fallback_response` collects from tool
results (truthiness of Python values modelled per field: empty string and
empty list are falsy). -/
def respLines (toolResults : List (Option String × List (String × String) × ToolResult)) :
    List String :=
  toolResults.foldl (fun acc tr =>
    let r := tr.2.2
    if r.success then
      let a1 := match r.message with
        | some m => if m = "" then acc else acc ++ [m]
        | none => acc
      let a2 := match r.data.applications with
        | some n => if n = 0 then a1 else a1 ++ ["You have " ++ toString n ++ " applications."]
        | none => a1
      let a3 := match r.data.deadline with
        | some d => if d = "" then a2 else a2 ++ ["Deadline: " ++ d]
        | none => a2
      match r.data.overallScore with
        | some sc => if sc = "" then a3 else a3 ++ ["Essay score: " ++ sc ++ "/100"]
        | none => a3
    else acc ++ ["I encountered an issue: " ++ r.error.getD "Unknown error"]) []

/-- `GradTrackAgent._generate_fallback_response` (agent.py lines 444-481). -/
def fallbackResponse (userMessage : String)
    (toolResults : List (Option String × List (String × String) × ToolResult)) : String :=
  if toolResults.isEmpty then
    "I understand you said: '" ++ pyTake 100 userMessage ++
      "'. How can I help you with your graduate school applications today?"
  else
    let rs := respLines toolResults
    if rs.isEmpty then "I've processed your request. Is there anything else you'd like to know?"
    else joinSep " " rs

/-- `GradTrackAgent._generate_response` (agent.py lines 382-442): the LLM
reply (stripped) when the client is present and the call succeeds, the
deterministic fallback otherwise. -/
def generateResponse (env : Env) (userMessage : String)
    (toolResults : List (Option String × List (String × String) × ToolResult)) : String :=
  if env.clientPresent then
    match env.respondReply with
    | .ok t => pyStrip t
    | .error _ => fallbackResponse userMessage toolResults
  else fallbackResponse userMessage toolResults

/-- `GradTrackAgent.process_message` (agent.py lines 130-232).  The square
bracket reads `tool_decision["use_tool"]`, `["tool_name"]`, `["tool_params"]`
sit outside every `try` of the source and abort the turn when the key is
missing; `Except.error` models exactly that.  (A JSON-null tool name inside
`",".join` at the STORE step would also raise in Python; no settled claim
depends on that corner and `tools_used` renders the name here.) -/
def processMessage (env : Env) (st : MState) (userMessage sessionId tid tiso : String) :
    Except PyError (MState × String) := do
  let _memoryContext := getRelevantContext st userMessage true true true 2000
  let d := decideToolUse env userMessage
  let useTool ← getKey "use_tool" d.useToolKey
  let toolResults ←
    if useTool then do
      let toolName ← getKey "tool_name" d.toolNameKey
      let toolParams ← getKey "tool_params" d.toolParamsKey
      pure [(toolName, toolParams, executeToolOpt env.tools toolName toolParams)]
    else
      pure ([] : List (Option String × List (String × String) × ToolResult))
  let response := generateResponse env userMessage toolResults
  let toolsUsed := toolResults.map (fun tr => tr.1.getD "None")
  let r := storeConversation st userMessage response toolsUsed sessionId tid tiso
  pure (r.1, response)

/-! ### Lemmas about the greedy packing loop of `get_relevant_context` -/

theorem addLoop_stop (budget : ℚ) (items : List (String × ℚ)) (acc : List String × ℚ)
    (h : budget ≤ acc.2) : addLoop budget items acc = acc := by
  cases items with
  | nil => rfl
  | cons it rest => obtain ⟨s, w⟩ := it; simp only [addLoop, if_pos h]

theorem addLoop_parts_ext (budget : ℚ) :
    ∀ (items : List (String × ℚ)) (acc : List String × ℚ),
      ∃ t, (addLoop budget items acc).1 = acc.1 ++ t := by
  intro items
  induction items with
  | nil => intro acc; exact ⟨[], by simp [addLoop]⟩
  | cons it rest ih =>
    intro acc
    obtain ⟨s, w⟩ := it
    by_cases h : budget ≤ acc.2
    · exact ⟨[], by simp [addLoop, if_pos h]⟩
    · obtain ⟨t, ht⟩ := ih (acc.1 ++ [s], acc.2 + w)
      refine ⟨[s] ++ t, ?_⟩
      simp only [addLoop, if_neg h]
      rw [ht, List.append_assoc]

theorem addLoop_est_bound (budget M : ℚ) :
    ∀ (items : List (String × ℚ)) (ps : List String) (e : ℚ),
      e < budget → (∀ w ∈ items.map Prod.snd, w ≤ M) → 0 ≤ M →
      (addLoop budget items (ps, e)).2 < budget + M := by
  intro items
  induction items with
  | nil =>
    intro ps e he _ hM
    simp only [addLoop]
    linarith
  | cons it rest ih =>
    intro ps e he hw hM
    obtain ⟨s, w⟩ := it
    have hwM : w ≤ M := hw w (by simp)
    have hnot : ¬ budget ≤ e := not_le.mpr he
    simp only [addLoop, if_neg hnot]
    by_cases h2 : e + w < budget
    · exact ih (ps ++ [s]) (e + w) h2 (fun x hx => hw x (by simp at hx ⊢; exact Or.inr hx)) hM
    · have hstop : budget ≤ e + w := not_lt.mp h2
      rw [addLoop_stop budget rest _ hstop]
      simp only
      linarith

theorem addLoop_mono (b1 b2 : ℚ) (hb : b1 ≤ b2) :
    ∀ (items : List (String × ℚ)) (acc : List String × ℚ),
      (∃ t, (addLoop b2 items acc).1 = (addLoop b1 items acc).1 ++ t) ∧
      ((addLoop b1 items acc).2 < b1 → addLoop b1 items acc = addLoop b2 items acc) := by
  intro items
  induction items with
  | nil => intro acc; exact ⟨⟨[], by simp [addLoop]⟩, fun _ => rfl⟩
  | cons it rest ih =>
    intro acc
    obtain ⟨s, w⟩ := it
    by_cases h1 : b1 ≤ acc.2
    · have r1 : addLoop b1 ((s, w) :: rest) acc = acc := addLoop_stop _ _ _ h1
      constructor
      · obtain ⟨t, ht⟩ := addLoop_parts_ext b2 ((s, w) :: rest) acc
        exact ⟨t, by rw [r1, ht]⟩
      · intro hlt
        rw [r1] at hlt
        exact absurd h1 (not_le.mpr hlt)
    · have h2 : ¬ b2 ≤ acc.2 := fun hc => h1 (hb.trans hc)
      have e1 : addLoop b1 ((s, w) :: rest) acc = addLoop b1 rest (acc.1 ++ [s], acc.2 + w) := by
        simp only [addLoop, if_neg h1]
      have e2 : addLoop b2 ((s, w) :: rest) acc = addLoop b2 rest (acc.1 ++ [s], acc.2 + w) := by
        simp only [addLoop, if_neg h2]
      rw [e1, e2]
      exact ih _

theorem listMax0_nonneg : ∀ l : List ℚ, 0 ≤ listMax0 l := by
  intro l
  induction l with
  | nil => simp [listMax0]
  | cons w ws ih => simp only [listMax0]; exact le_max_of_le_right ih

theorem le_listMax0 : ∀ (l : List ℚ) (w : ℚ), w ∈ l → w ≤ listMax0 l := by
  intro l
  induction l with
  | nil => intro w hw; cases hw
  | cons x xs ih =>
    intro w hw
    rcases List.mem_cons.mp hw with h | h
    · subst h; exact le_max_left _ _
    · exact le_trans (ih w h) (le_max_right _ _)

theorem joinSep_length_le (sep : String) :
    ∀ (p t : List String), (joinSep sep p).length ≤ (joinSep sep (p ++ t)).length := by
  intro p
  induction p with
  | nil => intro t; simp [joinSep]
  | cons s ss ih =>
    intro t
    cases ss with
    | nil =>
      cases t with
      | nil => simp
      | cons u us =>
        simp only [joinSep, List.nil_append, List.cons_append, String.length_append]
        omega
    | cons s2 ss2 =>
      have h1 : joinSep sep (s :: s2 :: ss2) = s ++ sep ++ joinSep sep (s2 :: ss2) := rfl
      have h2 : joinSep sep ((s :: s2 :: ss2) ++ t) =
          s ++ sep ++ joinSep sep ((s2 :: ss2) ++ t) := rfl
      rw [h1, h2, String.length_append, String.length_append,
          String.length_append, String.length_append]
      have := ih t
      omega

/-! ### Claim C1: the context estimate versus the budget -/

/-- When the recent-conversation estimate already reaches the budget, both
retrieval stages of `get_relevant_context` are skipped and the output is
exactly the recent-conversation block. -/
theorem contextParts_stage1_overflow (st : MState) (q : String) (ir ie ip : Bool) (b : ℚ)
    (h : ¬ stage1Est st.buffer ir < b) :
    contextParts st q ir ie ip b = (stage1Parts st.buffer ir, stage1Est st.buffer ir) := by
  have hs2 : stage2State st q ir b = (stage1Parts st.buffer ir, stage1Est st.buffer ir) := by
    unfold stage2State
    exact if_neg (fun hc => h hc.1)
  unfold contextParts
  rw [hs2]
  exact if_neg (fun hc => h hc.2.1)

/-- Claim C1, counterexample.  With a single three-word user message in the
conversation buffer and `max_tokens = 1`, the text `get_relevant_context`
returns has eight words, so its estimated size (word count times the fixed
1.3 multiplier) is 10.4 and exceeds the budget: the recent-conversation
stage is included without any budget check. -/
theorem c1_counterexample :
    (1 : ℚ) <
      (wordCount (getRelevantContext ⟨[], [⟨"user", "a b c"⟩]⟩ "hello" true true true 1) : ℚ)
        * q13 := by
  have hnot : ¬ stage1Est ([⟨"user", "a b c"⟩] : List ChatMsg) true < 1 := by
    have hsum : ((stage1Parts ([⟨"user", "a b c"⟩] : List ChatMsg) true).map wordCount).sum = 8 := by
      decide
    unfold stage1Est
    rw [hsum]
    unfold q13
    norm_num
  have hcp := contextParts_stage1_overflow ⟨[], [⟨"user", "a b c"⟩]⟩ "hello" true true true 1 hnot
  unfold getRelevantContext
  rw [hcp]
  have hwc : wordCount (joinSep "\n" (stage1Parts ([⟨"user", "a b c"⟩] : List ChatMsg) true)) = 8 := by
    decide
  show (1 : ℚ) <
    (wordCount (joinSep "\n" (stage1Parts ([⟨"user", "a b c"⟩] : List ChatMsg) true)) : ℚ) * q13
  rw [hwc]
  unfold q13
  norm_num

/-- Claim C1, amended.  The running estimate of `get_relevant_context` can
exceed `max_tokens`, but only in a controlled way: when the recent-conversation
estimate already reaches the budget, no retrieved record is included at all
(the output is exactly the recent-conversation parts); and when it is below
the budget, the final estimate stays below `max_tokens` plus the largest
single retrieval item estimate, because every retrieval item is admitted only
while the running estimate is strictly below the budget. -/
theorem c1_amended_budget_guard (st : MState) (q : String) (ir ie ip : Bool) (b : ℚ) :
    (¬ stage1Est st.buffer ir < b →
      contextParts st q ir ie ip b = (stage1Parts st.buffer ir, stage1Est st.buffer ir)) ∧
    (stage1Est st.buffer ir < b →
      (contextParts st q ir ie ip b).2 < b + maxItemEst st q) := by
  have hM0 : 0 ≤ maxItemEst st q := listMax0_nonneg _
  have hw2 : ∀ w ∈ (stage2Items (searchSimilar st q 3 (some "conversation"))).map Prod.snd,
      w ≤ maxItemEst st q :=
    fun w hw => le_listMax0 _ _ (List.mem_append.mpr (Or.inl hw))
  have hw3 : ∀ w ∈ (stage3Items (searchSimilar st q 2 (some "preference"))).map Prod.snd,
      w ≤ maxItemEst st q :=
    fun w hw => le_listMax0 _ _ (List.mem_append.mpr (Or.inr hw))
  constructor
  · exact contextParts_stage1_overflow st q ir ie ip b
  · intro h
    unfold contextParts
    by_cases h3 : ip ∧ (stage2State st q ir b).2 < b ∧
        searchSimilar st q 2 (some "preference") ≠ []
    · rw [if_pos h3]
      exact addLoop_est_bound b (maxItemEst st q) _ _ _ h3.2.1 hw3 hM0
    · rw [if_neg h3]
      unfold stage2State
      by_cases h2 : stage1Est st.buffer ir < b ∧
          searchSimilar st q 3 (some "conversation") ≠ []
      · rw [if_pos h2]
        exact addLoop_est_bound b (maxItemEst st q) _ _ _ h hw2 hM0
      · rw [if_neg h2]
        simp only
        linarith

/-- Witness for the amended C1 at a concrete input. -/
theorem c1_amended_budget_guard_witness :
    stage1Est ((⟨[], [⟨"user", "a b c"⟩]⟩ : MState)).buffer true < 100 ∧
    (contextParts ⟨[], [⟨"user", "a b c"⟩]⟩ "hello" true true true 100).2 <
      100 + maxItemEst ⟨[], [⟨"user", "a b c"⟩]⟩ "hello" := by
  have hlt : stage1Est ((⟨[], [⟨"user", "a b c"⟩]⟩ : MState)).buffer true < 100 := by
    have hsum : ((stage1Parts ([⟨"user", "a b c"⟩] : List ChatMsg) true).map wordCount).sum = 8 := by
      decide
    show stage1Est ([⟨"user", "a b c"⟩] : List ChatMsg) true < 100
    unfold stage1Est
    rw [hsum]
    unfold q13
    norm_num
  exact ⟨hlt, (c1_amended_budget_guard ⟨[], [⟨"user", "a b c"⟩]⟩ "hello" true true true 100).2 hlt⟩

/-! ### Claim C9: the assembled context is monotone in the budget -/

/-- Claim C9.  For a fixed query, buffer, and store, raising the budget can
only extend the assembled `context_parts` list at its end — the parts built
under the smaller budget are literally a prefix of those built under the
larger one — and hence the returned context string never shrinks when the
budget grows (reducing the budget never increases the included text). -/
theorem c9_budget_monotone (st : MState) (q : String) (ir ie ip : Bool)
    (b1 b2 : ℚ) (hb : b1 ≤ b2) :
    (∃ t, (contextParts st q ir ie ip b2).1 = (contextParts st q ir ie ip b1).1 ++ t) ∧
    (getRelevantContext st q ir ie ip b1).length ≤
      (getRelevantContext st q ir ie ip b2).length := by
  have hstage2 :
      (∃ t, (stage2State st q ir b2).1 = (stage2State st q ir b1).1 ++ t) ∧
      ((stage2State st q ir b1).2 < b1 → stage2State st q ir b1 = stage2State st q ir b2) := by
    unfold stage2State
    by_cases h1 : stage1Est st.buffer ir < b1 ∧
        searchSimilar st q 3 (some "conversation") ≠ []
    · have h1b : stage1Est st.buffer ir < b2 ∧
          searchSimilar st q 3 (some "conversation") ≠ [] := ⟨lt_of_lt_of_le h1.1 hb, h1.2⟩
      rw [if_pos h1, if_pos h1b]
      exact addLoop_mono b1 b2 hb _ _
    · rw [if_neg h1]
      by_cases h2 : stage1Est st.buffer ir < b2 ∧
          searchSimilar st q 3 (some "conversation") ≠ []
      · rw [if_pos h2]
        constructor
        · obtain ⟨t, ht⟩ := addLoop_parts_ext b2 (stage2Items (searchSimilar st q 3 (some "conversation")))
            (stage1Parts st.buffer ir ++ ["\n=== Related Past Conversations ==="],
             stage1Est st.buffer ir)
          exact ⟨"\n=== Related Past Conversations ===" :: t, by
            rw [ht]; simp [List.append_assoc]⟩
        · intro hlt
          exact absurd ⟨hlt, h2.2⟩ h1
      · rw [if_neg h2]
        exact ⟨⟨[], by simp⟩, fun _ => rfl⟩
  have hparts : ∃ t, (contextParts st q ir ie ip b2).1 = (contextParts st q ir ie ip b1).1 ++ t := by
    unfold contextParts
    by_cases h3 : ip ∧ (stage2State st q ir b1).2 < b1 ∧
        searchSimilar st q 2 (some "preference") ≠ []
    · have heq : stage2State st q ir b1 = stage2State st q ir b2 := hstage2.2 h3.2.1
      have h3b : ip ∧ (stage2State st q ir b2).2 < b2 ∧
          searchSimilar st q 2 (some "preference") ≠ [] :=
        ⟨h3.1, by rw [← heq]; exact lt_of_lt_of_le h3.2.1 hb, h3.2.2⟩
      rw [if_pos h3, if_pos h3b, ← heq]
      exact (addLoop_mono b1 b2 hb _ _).1
    · rw [if_neg h3]
      by_cases h4 : ip ∧ (stage2State st q ir b2).2 < b2 ∧
          searchSimilar st q 2 (some "preference") ≠ []
      · rw [if_pos h4]
        obtain ⟨t1, ht1⟩ := hstage2.1
        obtain ⟨t2, ht2⟩ := addLoop_parts_ext b2 (stage3Items (searchSimilar st q 2 (some "preference")))
          ((stage2State st q ir b2).1 ++ ["\n=== User Preferences ==="], (stage2State st q ir b2).2)
        refine ⟨t1 ++ ["\n=== User Preferences ==="] ++ t2, ?_⟩
        rw [ht2]
        simp only
        rw [ht1]
        simp [List.append_assoc]
      · rw [if_neg h4]
        exact hstage2.1
  refine ⟨hparts, ?_⟩
  obtain ⟨t, ht⟩ := hparts
  unfold getRelevantContext
  rw [ht]
  exact joinSep_length_le "\n" _ t

/-- A concrete memory state for the C9 witness. -/
def c9wSt : MState :=
  ⟨[⟨"m1", "alpha beta gamma", [("type", "conversation")]⟩],
   [⟨"user", "alpha question"⟩]⟩

/-- Witness for C9 at a concrete input. -/
theorem c9_budget_monotone_witness :
    (1 : ℚ) ≤ 1000 ∧
    ∃ t, (contextParts c9wSt "alpha" true true true 1000).1 =
          (contextParts c9wSt "alpha" true true true 1).1 ++ t :=
  ⟨by norm_num,
   (c9_budget_monotone c9wSt "alpha" true true true 1 1000 (by norm_num)).1⟩

/-! ### Claim C7: the conversation buffer is bounded -/

/-- Claim C7.  After every `store_conversation` call the conversation buffer
holds at most 20 messages; it is a suffix of the previous buffer extended
with the new user/assistant pair (so overflow drops only from the front and
order is preserved oldest-to-newest), and it always retains the two newest
messages at its end. -/
theorem c7_buffer_bounded (st : MState) (u a : String) (toolsUsed : List String)
    (sid tid tiso : String) :
    ((storeConversation st u a toolsUsed sid tid tiso).1.buffer).length ≤ 20 ∧
    (∃ dropped, dropped ++ (storeConversation st u a toolsUsed sid tid tiso).1.buffer =
      st.buffer ++ ([⟨"user", u⟩, ⟨"assistant", a⟩] : List ChatMsg)) ∧
    (∃ front, (storeConversation st u a toolsUsed sid tid tiso).1.buffer =
      front ++ ([⟨"user", u⟩, ⟨"assistant", a⟩] : List ChatMsg)) := by
  have hbuf : (storeConversation st u a toolsUsed sid tid tiso).1.buffer =
      (if (st.buffer ++ ([⟨"user", u⟩, ⟨"assistant", a⟩] : List ChatMsg)).length > 20 then
        (st.buffer ++ ([⟨"user", u⟩, ⟨"assistant", a⟩] : List ChatMsg)).drop
          ((st.buffer ++ ([⟨"user", u⟩, ⟨"assistant", a⟩] : List ChatMsg)).length - 20)
      else st.buffer ++ ([⟨"user", u⟩, ⟨"assistant", a⟩] : List ChatMsg)) := rfl
  rw [hbuf]
  by_cases h : (st.buffer ++ ([⟨"user", u⟩, ⟨"assistant", a⟩] : List ChatMsg)).length > 20
  · rw [if_pos h]
    have hlen : (st.buffer ++ ([⟨"user", u⟩, ⟨"assistant", a⟩] : List ChatMsg)).length =
        st.buffer.length + 2 := by simp
    refine ⟨?_, ?_, ?_⟩
    · rw [List.length_drop]
      omega
    · exact ⟨(st.buffer ++ ([⟨"user", u⟩, ⟨"assistant", a⟩] : List ChatMsg)).take
        ((st.buffer ++ ([⟨"user", u⟩, ⟨"assistant", a⟩] : List ChatMsg)).length - 20),
        List.take_append_drop _ _⟩
    · have hk : (st.buffer ++ ([⟨"user", u⟩, ⟨"assistant", a⟩] : List ChatMsg)).length - 20 ≤
          st.buffer.length := by omega
      rw [List.drop_append_of_le_length hk]
      exact ⟨st.buffer.drop _, rfl⟩
  · rw [if_neg h]
    exact ⟨by omega, ⟨[], rfl⟩, ⟨st.buffer, rfl⟩⟩

/-! ### Claim C3: every turn completes and stores exactly one record -/

/-- An environment where the completion backend is reachable and its decision
call yields a reply that parses as the valid JSON object containing only a
`reasoning` key — a non-conforming decision document, error category 4 of the
spec. -/
def c3Env : Env := ⟨true, .doc ⟨none, none, none, some "ok"⟩, .error (), [], "summary"⟩

/-- Claim C3 fails on the code (code bug): with the completion backend
available and a decision reply that is valid JSON but lacks the `use_tool`
key, `process_message` raises `KeyError` at `tool_decision["use_tool"]`
(outside every `try` of the source), so the turn aborts: no response is
returned and the STORE step never runs — contradicting the claim that no
category-4 error (malformed decision document) aborts the turn. -/
theorem c3_nonconforming_decision_aborts :
    processMessage c3Env ⟨[], []⟩ "hello" "default" "t0" "i0" =
      .error (.keyError "use_tool") := rfl

/-! ### Claim C5: the rule-based decision priority order -/

/-- Claim C5.  The rule-based decision checks the four keyword categories in
the fixed order application-management, research, essay, task — the first
match fixes the tool — with the action verb mapping add/create/new ↦ create,
update/change/move ↦ update, delete/remove ↦ delete, default read; with no
match it returns use_tool false and a null tool name; and the message
"add Stanford" yields the application tool with action create. -/
theorem c5_rule_based_priority (msg : String) :
    (containsAny (lowerStr msg) appKeywords = true →
      ruleBasedDecision msg =
        ⟨true, some "application_database", [("action", appAction (lowerStr msg))],
          "User wants to manage applications"⟩) ∧
    (containsAny (lowerStr msg) appKeywords = false →
      containsAny (lowerStr msg) researchKeywords = true →
      ruleBasedDecision msg =
        ⟨true, some "program_research",
          [("school", (schoolsList.find? (fun s => strContains (lowerStr msg) s)).getD "unknown"),
           ("program", "Computer Science"), ("info_type", "all")],
          "User wants program information"⟩) ∧
    (containsAny (lowerStr msg) appKeywords = false →
      containsAny (lowerStr msg) researchKeywords = false →
      containsAny (lowerStr msg) essayKeywords = true →
      ruleBasedDecision msg =
        ⟨true, some "essay_analyzer", [("essay_text", msg), ("analysis_type", "full")],
          "User wants essay feedback"⟩) ∧
    (containsAny (lowerStr msg) appKeywords = false →
      containsAny (lowerStr msg) researchKeywords = false →
      containsAny (lowerStr msg) essayKeywords = false →
      containsAny (lowerStr msg) taskKeywords = true →
      ruleBasedDecision msg =
        ⟨true, some "calendar_todo", [("action", taskAction (lowerStr msg))],
          "User wants to manage tasks"⟩) ∧
    (containsAny (lowerStr msg) appKeywords = false →
      containsAny (lowerStr msg) researchKeywords = false →
      containsAny (lowerStr msg) essayKeywords = false →
      containsAny (lowerStr msg) taskKeywords = false →
      ruleBasedDecision msg = ⟨false, none, [], "General conversation - no tool needed"⟩) ∧
    (containsAny (lowerStr msg) ["add", "create", "new"] = true →
      appAction (lowerStr msg) = "create") ∧
    (containsAny (lowerStr msg) ["add", "create", "new"] = false →
      containsAny (lowerStr msg) ["update", "change", "move"] = true →
      appAction (lowerStr msg) = "update") ∧
    (containsAny (lowerStr msg) ["add", "create", "new"] = false →
      containsAny (lowerStr msg) ["update", "change", "move"] = false →
      containsAny (lowerStr msg) ["delete", "remove"] = true →
      appAction (lowerStr msg) = "delete") ∧
    (containsAny (lowerStr msg) ["add", "create", "new"] = false →
      containsAny (lowerStr msg) ["update", "change", "move"] = false →
      containsAny (lowerStr msg) ["delete", "remove"] = false →
      appAction (lowerStr msg) = "read") ∧
    ruleBasedDecision "add Stanford" =
      ⟨true, some "application_database", [("action", "create")],
        "User wants to manage applications"⟩ := by
  refine ⟨?_, ?_, ?_, ?_, ?_, ?_, ?_, ?_, ?_, ?_⟩
  · intro h1
    simp [ruleBasedDecision, h1]
  · intro h1 h2
    simp [ruleBasedDecision, h1, h2]
  · intro h1 h2 h3
    simp [ruleBasedDecision, h1, h2, h3]
  · intro h1 h2 h3 h4
    simp [ruleBasedDecision, h1, h2, h3, h4]
  · intro h1 h2 h3 h4
    simp [ruleBasedDecision, h1, h2, h3, h4]
  · intro h1
    simp [appAction, h1]
  · intro h1 h2
    simp [appAction, h1, h2]
  · intro h1 h2 h3
    simp [appAction, h1, h2, h3]
  · intro h1 h2 h3
    simp [appAction, h1, h2, h3]
  · decide

/-- Witness for C5: a message matching every keyword category is still routed
to the application tool with action create — the priority order in action. -/
theorem c5_rule_based_priority_witness :
    containsAny (lowerStr "add the essay deadline task") appKeywords = true ∧
    ruleBasedDecision "add the essay deadline task" =
      ⟨true, some "application_database", [("action", "create")],
        "User wants to manage applications"⟩ :=
  ⟨by decide,
   ((c5_rule_based_priority "add the essay deadline task").1 (by decide)).trans (by decide)⟩

/-! ### Claim C6: tool dispatch never propagates an exception -/

/-- Claim C6.  `_execute_tool` is total: an unregistered name yields the
tagged unknown-tool failure, a raising handler yields
`{success: false, error: message}`, and a successful handler's result is
passed through unchanged. -/
theorem c6_dispatch_total (tools : List (String × ToolHandler)) (name : String)
    (args : List (String × String)) :
    (tools.find? (fun q => q.1 == name) = none →
      executeTool tools name args = ToolResult.failure ("Unknown tool: " ++ name)) ∧
    (∀ p e, tools.find? (fun q => q.1 == name) = some p → p.2 args = .error e →
      executeTool tools name args = ToolResult.failure e) ∧
    (∀ p r, tools.find? (fun q => q.1 == name) = some p → p.2 args = .ok r →
      executeTool tools name args = r) := by
  refine ⟨fun h => ?_, fun p e hp he => ?_, fun p r hp hr => ?_⟩
  · unfold executeTool
    rw [h]
  · unfold executeTool
    rw [hp]
    show (match p.2 args with
      | .ok r => r
      | .error e => ToolResult.failure e) = ToolResult.failure e
    rw [he]
  · unfold executeTool
    rw [hp]
    show (match p.2 args with
      | .ok r => r
      | .error e => ToolResult.failure e) = r
    rw [hr]

/-- A registered tool whose handler always raises. -/
def kaboomTool : ToolHandler := fun _ => .error "kaboom"

/-- Witness for C6: dispatching to a raising handler returns the caught
failure result. -/
theorem c6_dispatch_total_witness :
    executeTool [("boom", kaboomTool)] "boom" [] = ToolResult.failure "kaboom" :=
  (c6_dispatch_total [("boom", kaboomTool)] "boom" []).2.1 ("boom", kaboomTool) "kaboom" rfl rfl

/-! ### Claim C8: the store is append-only but ids come from the clock -/

/-- The `strftime("%Y%m%d_%H%M%S_%f")` string two same-microsecond calls both
observe. -/
def c8Clock : String := "20250101_120000_000000"

/-- The matching `isoformat()` string. -/
def c8Iso : String := "2025-01-01T12:00:00"

/-- First store of the pair. -/
def c8First : MState × String := storeMemory ⟨[], []⟩ "hello" "note" [] "default" c8Clock c8Iso

/-- Second store with identical arguments and the same clock reading. -/
def c8Second : MState × String := storeMemory c8First.1 "hello" "note" [] "default" c8Clock c8Iso

/-- Claim C8, counterexample.  Two `store_memory` calls with identical
arguments whose `datetime.now()` readings fall in the same microsecond
produce the SAME id (`type_timestamp`), so the two appended records do not
have distinct ids and ids are not unique across the store. -/
theorem c8_counterexample :
    c8Second.2 = c8First.2 ∧
    c8Second.1.store.map Mem.id = ["note_" ++ c8Clock, "note_" ++ c8Clock] :=
  ⟨rfl, rfl⟩

/-- Claim C8, amended.  Two `store_memory` calls with identical arguments
always append exactly two records (append-only, no dedup, no upsert), and the
two ids are distinct provided the two calls observe distinct timestamp
strings — id uniqueness rests on the microsecond clock, not on the code. -/
theorem c8_amended_append_only (st : MState) (content mt : String)
    (md : List (String × String)) (sid t1 i1 t2 i2 : String) :
    (storeMemory (storeMemory st content mt md sid t1 i1).1 content mt md sid t2 i2).1.store =
      st.store ++
        [⟨mt ++ "_" ++ t1, content,
          dmerge [("type", mt), ("session_id", sid), ("timestamp", i1)] md⟩,
         ⟨mt ++ "_" ++ t2, content,
          dmerge [("type", mt), ("session_id", sid), ("timestamp", i2)] md⟩] ∧
    (t1 ≠ t2 →
      (storeMemory st content mt md sid t1 i1).2 ≠
        (storeMemory (storeMemory st content mt md sid t1 i1).1 content mt md sid t2 i2).2) := by
  constructor
  · simp [storeMemory, List.append_assoc]
  · intro hne heq
    apply hne
    have heq2 : mt ++ "_" ++ t1 = mt ++ "_" ++ t2 := heq
    have h3 : (mt ++ "_").data ++ t1.data = (mt ++ "_").data ++ t2.data := by
      have h2 := congrArg String.data heq2
      simpa [String.data_append] using h2
    have h4 : t1.data = t2.data := List.append_cancel_left h3
    cases t1 with
    | mk d1 =>
      cases t2 with
      | mk d2 => exact congrArg String.mk h4

/-- Witness for the amended C8: distinct clock strings give distinct ids. -/
theorem c8_amended_append_only_witness :
    (storeMemory ⟨[], []⟩ "x" "note" [] "d" "ta" "ia").2 ≠
      (storeMemory (storeMemory ⟨[], []⟩ "x" "note" [] "d" "ta" "ia").1
        "x" "note" [] "d" "tb" "ib").2 :=
  (c8_amended_append_only ⟨[], []⟩ "x" "note" [] "d" "ta" "ia" "tb" "ib").2 (by decide)

/-! ### Lemmas about the stable descending sort of `_search_fallback` -/

/-- The strict order the stable descending sort realises on candidates
tagged with their store position: higher score first, equal scores in store
order (oldest first). -/
def scLT (a b : Scored) : Prop :=
  b.score < a.score ∨ (a.score = b.score ∧ a.idx < b.idx)

theorem scLT_asymm {a b : Scored} (h1 : scLT a b) (h2 : scLT b a) : False := by
  rcases h1 with h1 | ⟨e1, i1⟩
  · rcases h2 with h2 | ⟨e2, i2⟩
    · exact absurd h2 (not_lt.mpr (le_of_lt h1))
    · rw [e2] at h1
      exact lt_irrefl _ h1
  · rcases h2 with h2 | ⟨e2, i2⟩
    · rw [e1] at h2
      exact lt_irrefl _ h2
    · omega

theorem pyInsert_perm (x : Scored) : ∀ l : List Scored, (pyInsert x l).Perm (x :: l) := by
  intro l
  induction l with
  | nil => exact List.Perm.refl _
  | cons y ys ih =>
    by_cases h : y.score < x.score
    · simp [pyInsert, h]
    · simp only [pyInsert, if_neg h]
      exact (ih.cons y).trans (List.Perm.swap x y ys)

theorem sortFold_perm : ∀ (l acc : List Scored),
    (l.foldl (fun a x => pyInsert x a) acc).Perm (acc ++ l) := by
  intro l
  induction l with
  | nil => intro acc; simp
  | cons x xs ih =>
    intro acc
    rw [List.foldl_cons]
    refine (ih (pyInsert x acc)).trans ?_
    have h1 : (pyInsert x acc ++ xs).Perm ((x :: acc) ++ xs) :=
      (pyInsert_perm x acc).append_right xs
    have h2 : ((x :: acc) ++ xs).Perm (acc ++ x :: xs) := List.perm_middle.symm
    exact h1.trans h2

theorem sortDesc_perm (l : List Scored) : (sortDesc l).Perm l := by
  have h := sortFold_perm l []
  simpa [sortDesc] using h

theorem mem_pyInsert {y x : Scored} {l : List Scored} :
    y ∈ pyInsert x l ↔ y = x ∨ y ∈ l := by
  rw [(pyInsert_perm x l).mem_iff]
  simp

theorem pyInsert_pairwise {x : Scored} : ∀ {l : List Scored},
    l.Pairwise scLT → (∀ y ∈ l, y.idx < x.idx) → (pyInsert x l).Pairwise scLT := by
  intro l
  induction l with
  | nil =>
    intro _ _
    simp [pyInsert]
  | cons y ys ih =>
    intro hp hidx
    rcases List.pairwise_cons.mp hp with ⟨hy, hys⟩
    by_cases h : y.score < x.score
    · simp only [pyInsert, if_pos h]
      refine List.pairwise_cons.mpr ⟨?_, hp⟩
      intro z hz
      rcases List.mem_cons.mp hz with rfl | hz2
      · exact Or.inl h
      · rcases hy z hz2 with hlt | ⟨heq, _⟩
        · exact Or.inl (lt_trans hlt h)
        · exact Or.inl (heq ▸ h)
    · simp only [pyInsert, if_neg h]
      refine List.pairwise_cons.mpr
        ⟨?_, ih hys (fun z hz => hidx z (List.mem_cons_of_mem y hz))⟩
      intro z hz
      rcases mem_pyInsert.mp hz with rfl | hz2
      · rcases lt_or_eq_of_le (not_lt.mp h) with hlt | heq
        · exact Or.inl hlt
        · exact Or.inr ⟨heq.symm, hidx y (List.mem_cons_self y ys)⟩
      · exact hy z hz2

theorem sortFold_pairwise : ∀ (l acc : List Scored),
    acc.Pairwise scLT → (∀ y ∈ acc, ∀ x ∈ l, y.idx < x.idx) →
    l.Pairwise (fun a b => a.idx < b.idx) →
    (l.foldl (fun a x => pyInsert x a) acc).Pairwise scLT := by
  intro l
  induction l with
  | nil =>
    intro acc h _ _
    simpa using h
  | cons x xs ih =>
    intro acc hacc hmix hl
    rw [List.foldl_cons]
    rcases List.pairwise_cons.mp hl with ⟨hxl, hxs⟩
    refine ih (pyInsert x acc) ?_ ?_ hxs
    · exact pyInsert_pairwise hacc (fun y hy => hmix y hy x (List.mem_cons_self x xs))
    · intro y hy z hz
      rcases mem_pyInsert.mp hy with rfl | hy2
      · exact hxl z hz
      · exact hmix y hy2 z (List.mem_cons_of_mem x hz)

theorem sortDesc_pairwise (l : List Scored)
    (hl : l.Pairwise (fun a b => a.idx < b.idx)) : (sortDesc l).Pairwise scLT := by
  have h := sortFold_pairwise l [] (by simp) (by simp) hl
  simpa [sortDesc] using h

theorem scoreMems_idx_ge (qws : Finset String) (mtype : Option String) :
    ∀ (ms : List Mem) (i : Nat), ∀ x ∈ scoreMems qws mtype i ms, i ≤ x.idx := by
  intro ms
  induction ms with
  | nil =>
    intro i x hx
    simp [scoreMems] at hx
  | cons m ms2 ih =>
    intro i x hx
    unfold scoreMems at hx
    by_cases hc : typePass mtype m = true ∧ 0 < overlapCount qws m.content
    · rw [if_pos hc] at hx
      rcases List.mem_cons.mp hx with rfl | hx2
      · exact le_refl _
      · exact le_trans (Nat.le_succ i) (ih (i + 1) x hx2)
    · rw [if_neg hc] at hx
      exact le_trans (Nat.le_succ i) (ih (i + 1) x hx)

theorem scoreMems_pairwise_idx (qws : Finset String) (mtype : Option String) :
    ∀ (ms : List Mem) (i : Nat),
      (scoreMems qws mtype i ms).Pairwise (fun a b => a.idx < b.idx) := by
  intro ms
  induction ms with
  | nil =>
    intro i
    simp [scoreMems]
  | cons m ms2 ih =>
    intro i
    unfold scoreMems
    by_cases hc : typePass mtype m = true ∧ 0 < overlapCount qws m.content
    · rw [if_pos hc]
      refine List.pairwise_cons.mpr ⟨?_, ih (i + 1)⟩
      intro x hx
      have hge := scoreMems_idx_ge qws mtype ms2 (i + 1) x hx
      show i < x.idx
      omega
    · rw [if_neg hc]
      exact ih (i + 1)

theorem scoreMems_sound (qws : Finset String) (mtype : Option String) :
    ∀ (ms : List Mem) (i : Nat) (x : Scored), x ∈ scoreMems qws mtype i ms →
      ∃ j m, ms[j]? = some m ∧ x.idx = i + j ∧ x.mem = m ∧
        typePass mtype m = true ∧ 0 < overlapCount qws m.content ∧
        x.score = mkRat (overlapCount qws m.content) (qws.card) := by
  intro ms
  induction ms with
  | nil =>
    intro i x hx
    simp [scoreMems] at hx
  | cons m ms2 ih =>
    intro i x hx
    unfold scoreMems at hx
    by_cases hc : typePass mtype m = true ∧ 0 < overlapCount qws m.content
    · rw [if_pos hc] at hx
      rcases List.mem_cons.mp hx with rfl | hx2
      · exact ⟨0, m, by simp, by simp, rfl, hc.1, hc.2, rfl⟩
      · obtain ⟨j, m2, h1, h2, h3, h4, h5, h6⟩ := ih (i + 1) x hx2
        exact ⟨j + 1, m2, by simpa using h1, by omega, h3, h4, h5, h6⟩
    · rw [if_neg hc] at hx
      obtain ⟨j, m2, h1, h2, h3, h4, h5, h6⟩ := ih (i + 1) x hx
      exact ⟨j + 1, m2, by simpa using h1, by omega, h3, h4, h5, h6⟩

theorem scoreMems_complete (qws : Finset String) (mtype : Option String) :
    ∀ (ms : List Mem) (i j : Nat) (m : Mem), ms[j]? = some m →
      typePass mtype m = true → 0 < overlapCount qws m.content →
      (⟨i + j, mkRat (overlapCount qws m.content) (qws.card), m⟩ : Scored) ∈
        scoreMems qws mtype i ms := by
  intro ms
  induction ms with
  | nil =>
    intro i j m h
    simp at h
  | cons m0 ms2 ih =>
    intro i j m hj hty hov
    unfold scoreMems
    cases j with
    | zero =>
      have hm : m0 = m := by simpa using hj
      subst hm
      rw [if_pos ⟨hty, hov⟩]
      simp
    | succ j2 =>
      have hj2 : ms2[j2]? = some m := by simpa using hj
      have hmem := ih (i + 1) j2 m hj2 hty hov
      have hcast : (⟨(i + 1) + j2, mkRat (overlapCount qws m.content) (qws.card), m⟩ : Scored) =
          ⟨i + (j2 + 1), mkRat (overlapCount qws m.content) (qws.card), m⟩ := by
        congr 1
        omega
      rw [hcast] at hmem
      by_cases hc : typePass mtype m0 = true ∧ 0 < overlapCount qws m0.content
      · rw [if_pos hc]
        exact List.mem_cons_of_mem _ hmem
      · rw [if_neg hc]
        exact hmem

theorem head_eq_of_max {out : List Scored} {x : Scored}
    (hp : out.Pairwise scLT) (hmem : x ∈ out)
    (hmax : ∀ y ∈ out, y = x ∨ scLT x y) : out.head? = some x := by
  cases out with
  | nil => cases hmem
  | cons h t =>
    rcases List.mem_cons.mp hmem with rfl | hxt
    · rfl
    · exfalso
      have h1 : scLT h x := (List.pairwise_cons.mp hp).1 x hxt
      rcases hmax h (List.mem_cons_self h t) with rfl | h2
      · exact scLT_asymm h1 h1
      · exact scLT_asymm h1 h2

theorem head?_take_of_pos {α : Type} {l : List α} {n : Nat} (h : 1 ≤ n) :
    (l.take n).head? = l.head? := by
  cases l with
  | nil => simp
  | cons a t =>
    cases n with
    | zero => omega
    | succ n2 => rfl

/-- `mkRat` over naturals is the rational quotient. -/
theorem mkRat_eq_natCast_div (a b : Nat) : (mkRat a b : ℚ) = (a : ℚ) / (b : ℚ) := by
  rw [Rat.mkRat_eq_div]
  norm_num

/-! ### Claim C4: the lexical fallback ranking -/

/-- A store with two records that tie on the query "alpha"; A is older
(stored first, earlier timestamp), B is more recent. -/
def c4Store : List Mem :=
  [⟨"A", "alpha x", [("type", "conversation"), ("timestamp", "2024-01-01T00:00:00")]⟩,
   ⟨"B", "alpha y", [("type", "conversation"), ("timestamp", "2024-01-02T00:00:00")]⟩]

/-- Claim C4, counterexample.  Both records score 1 on the query "alpha",
yet the search returns the OLDER record A first: Python's stable sort keeps
equal-score candidates in storage order (oldest first), not
most-recent-first as the claim states. -/
theorem c4_counterexample :
    searchFallback c4Store "alpha" 5 none =
      [⟨"alpha x", [("type", "conversation"), ("timestamp", "2024-01-01T00:00:00")], "A", 1⟩,
       ⟨"alpha y", [("type", "conversation"), ("timestamp", "2024-01-02T00:00:00")], "B", 1⟩] := by
  decide

/-- Claim C4, amended.  The lexical fallback scores each kept candidate by
`|query_tokens ∩ body_tokens| / |query_tokens|`, discards zero-overlap
candidates (and only those, apart from the limit cut), returns at most
`limit` results, sorted descending by score — but ties are broken
oldest-first (storage order), not most-recent-first.  Stated over the
position-tagged scored list: the output is its stable descending sort cut to
`limit`; that cut is pairwise ordered by (score desc, store index asc); the
sort permutes the scored list; and the scored list holds exactly the
filter-passing, positive-overlap records with the claimed score. -/
theorem c4_amended_lexical_ranking (store : List Mem) (query : String) (limit : Nat)
    (mtype : Option String) :
    (searchFallback store query limit mtype).length ≤ limit ∧
    searchFallback store query limit mtype =
      ((sortDesc (scoreMems (tokenSet query) mtype 0 store)).take limit).map untag ∧
    ((sortDesc (scoreMems (tokenSet query) mtype 0 store)).take limit).Pairwise scLT ∧
    ((sortDesc (scoreMems (tokenSet query) mtype 0 store)).Perm
      (scoreMems (tokenSet query) mtype 0 store)) ∧
    (∀ x ∈ scoreMems (tokenSet query) mtype 0 store,
      ∃ m, store[x.idx]? = some m ∧ x.mem = m ∧ typePass mtype m = true ∧
        0 < overlapCount (tokenSet query) m.content ∧
        x.score = (overlapCount (tokenSet query) m.content : ℚ) / ((tokenSet query).card : ℚ)) ∧
    (∀ j m, store[j]? = some m → typePass mtype m = true →
      0 < overlapCount (tokenSet query) m.content →
      (⟨j, (overlapCount (tokenSet query) m.content : ℚ) / ((tokenSet query).card : ℚ), m⟩ :
        Scored) ∈ scoreMems (tokenSet query) mtype 0 store) := by
  refine ⟨?_, rfl, ?_, sortDesc_perm _, ?_, ?_⟩
  · unfold searchFallback
    rw [List.length_map]
    exact List.length_take_le _ _
  · exact (sortDesc_pairwise _ (scoreMems_pairwise_idx (tokenSet query) mtype store 0)).sublist
      (List.take_sublist _ _)
  · intro x hx
    obtain ⟨j, m, h1, h2, h3, h4, h5, h6⟩ :=
      scoreMems_sound (tokenSet query) mtype store 0 x hx
    rw [Nat.zero_add] at h2
    subst h2
    exact ⟨m, h1, h3, h4, h5, by rw [h6, mkRat_eq_natCast_div]⟩
  · intro j m h1 h2 h3
    have hmem := scoreMems_complete (tokenSet query) mtype store 0 j m h1 h2 h3
    have hcast : (⟨0 + j, mkRat (overlapCount (tokenSet query) m.content)
          ((tokenSet query).card), m⟩ : Scored) =
        ⟨j, (overlapCount (tokenSet query) m.content : ℚ) / ((tokenSet query).card : ℚ), m⟩ := by
      rw [Nat.zero_add, mkRat_eq_natCast_div]
    rw [hcast] at hmem
    exact hmem

/-- A one-record store for the C4 witness. -/
def c4wStore : List Mem := [⟨"A", "alpha x", [("type", "conversation")]⟩]

/-- Witness for the amended C4: the completeness conjunct applied at a
concrete store. -/
theorem c4_amended_lexical_ranking_witness :
    (⟨0, (overlapCount (tokenSet "alpha") ("alpha x" : String) : ℚ) /
        ((tokenSet "alpha").card : ℚ),
      ⟨"A", "alpha x", [("type", "conversation")]⟩⟩ : Scored) ∈
      scoreMems (tokenSet "alpha") none 0 c4wStore :=
  (c4_amended_lexical_ranking c4wStore "alpha" 5 none).2.2.2.2.2 0
    ⟨"A", "alpha x", [("type", "conversation")]⟩ rfl rfl (by decide)

/-! ### Claim C2: the self-match invariant of the lexical fallback -/

/-- A store where record B's exact body "hello" is fully contained (as a
token set) in the earlier record A's body. -/
def c2Store : List Mem :=
  [⟨"A", "hello world", [("type", "conversation")]⟩,
   ⟨"B", "hello", [("type", "conversation")]⟩]

/-- Claim C2, counterexample.  Querying with record B's exact body text
"hello" (limit 5, no filter) does NOT rank B first: the earlier record A
also contains every query token, both score 1, and the stable sort keeps the
earlier record first — the self-match invariant fails on ties. -/
theorem c2_counterexample :
    c2Store[1]? = some ⟨"B", "hello", [("type", "conversation")]⟩ ∧
    (searchFallback c2Store "hello" 5 none).map SearchResult.id = ["A", "B"] ∧
    (searchFallback c2Store "hello" 5 none).map SearchResult.score = [1, 1] :=
  ⟨rfl, by decide, by decide⟩

/-- Claim C2, amended.  Querying a stored record's exact body text returns
that record ranked first provided the body has at least one token,
`limit ≥ 1`, the type filter (if any) passes it, and no record stored
EARLIER both passes the filter and contains every token of the body — the
code breaks score ties by storage order, so only earlier full-overlap
records can displace the self match. -/
theorem c2_amended_self_match (store : List Mem) (n : Nat) (target : Mem)
    (limit : Nat) (mtype : Option String)
    (hget : store[n]? = some target)
    (hlim : 1 ≤ limit)
    (hty : typePass mtype target = true)
    (hne : (tokenSet target.content).Nonempty)
    (hearlier : ∀ j m, j < n → store[j]? = some m → typePass mtype m = true →
      ¬ tokenSet target.content ⊆ tokenSet m.content) :
    (searchFallback store target.content limit mtype).head? =
      some ⟨target.content, target.metadata, target.id, 1⟩ := by
  have hq0 : 0 < (tokenSet target.content).card := Finset.card_pos.mpr hne
  have hself : overlapCount (tokenSet target.content) target.content =
      (tokenSet target.content).card := by
    unfold overlapCount
    rw [Finset.inter_self]
  have hcne : (((tokenSet target.content).card : Nat) : ℚ) ≠ 0 := by
    exact_mod_cast Nat.pos_iff_ne_zero.mp hq0
  have hscore1 : mkRat (overlapCount (tokenSet target.content) target.content)
      ((tokenSet target.content).card) = 1 := by
    rw [hself, mkRat_eq_natCast_div]
    exact div_self hcne
  have hmemtag : (⟨n, 1, target⟩ : Scored) ∈
      scoreMems (tokenSet target.content) mtype 0 store := by
    have hmem := scoreMems_complete (tokenSet target.content) mtype store 0 n target hget hty
      (by rw [hself]; exact hq0)
    have hcast : (⟨0 + n, mkRat (overlapCount (tokenSet target.content) target.content)
          ((tokenSet target.content).card), target⟩ : Scored) = ⟨n, 1, target⟩ := by
      rw [Nat.zero_add, hscore1]
    rw [hcast] at hmem
    exact hmem
  have hmax : ∀ y ∈ scoreMems (tokenSet target.content) mtype 0 store,
      y = ⟨n, 1, target⟩ ∨ scLT ⟨n, 1, target⟩ y := by
    intro y hy
    obtain ⟨j, m, h1, h2, h3, h4, h5, h6⟩ :=
      scoreMems_sound (tokenSet target.content) mtype store 0 y hy
    rw [Nat.zero_add] at h2
    have hcard : overlapCount (tokenSet target.content) m.content ≤
        (tokenSet target.content).card :=
      Finset.card_le_card Finset.inter_subset_left
    have hsle : y.score ≤ 1 := by
      rw [h6, Rat.mkRat_eq_div]
      rw [div_le_one (by exact_mod_cast hq0)]
      exact_mod_cast hcard
    rcases Nat.lt_trichotomy j n with hj | hj | hj
    · have hnotsub : ¬ tokenSet target.content ⊆ tokenSet m.content :=
        hearlier j m hj h1 h4
      have hltcard : overlapCount (tokenSet target.content) m.content <
          (tokenSet target.content).card := by
        rcases lt_or_eq_of_le hcard with hlt | he
        · exact hlt
        · exfalso
          apply hnotsub
          rw [← Finset.inter_eq_left]
          exact Finset.eq_of_subset_of_card_le Finset.inter_subset_left (le_of_eq he.symm)
      have hslt : y.score < 1 := by
        rw [h6, Rat.mkRat_eq_div]
        rw [div_lt_one (by exact_mod_cast hq0)]
        exact_mod_cast hltcard
      exact Or.inr (Or.inl hslt)
    · subst hj
      rw [hget] at h1
      have hm : m = target := by
        injection h1 with h1e
        exact h1e.symm
      left
      rcases y with ⟨yi, ys, ym⟩
      simp only at h2 h3 h6
      subst h2
      rw [hm] at h3 h6
      rw [hscore1] at h6
      subst h3
      subst h6
      rfl
    · rcases lt_or_eq_of_le hsle with hlt | heq
      · exact Or.inr (Or.inl hlt)
      · refine Or.inr (Or.inr ⟨heq.symm, ?_⟩)
        show n < y.idx
        omega
  have hsorted := sortDesc_pairwise _
    (scoreMems_pairwise_idx (tokenSet target.content) mtype store 0)
  have hmem2 : (⟨n, 1, target⟩ : Scored) ∈
      sortDesc (scoreMems (tokenSet target.content) mtype 0 store) :=
    (sortDesc_perm _).mem_iff.mpr hmemtag
  have hmax2 : ∀ y ∈ sortDesc (scoreMems (tokenSet target.content) mtype 0 store),
      y = ⟨n, 1, target⟩ ∨ scLT ⟨n, 1, target⟩ y :=
    fun y hy => hmax y ((sortDesc_perm _).mem_iff.mp hy)
  have hhead := head_eq_of_max hsorted hmem2 hmax2
  unfold searchFallback
  rw [List.head?_map, head?_take_of_pos hlim, hhead]
  rfl

/-- A store for the C2 witness: the record before the target shares no
token with it. -/
def c2wStore : List Mem := [⟨"Z", "zebra notes", []⟩, ⟨"T", "hello world", []⟩]

/-- Witness for the amended C2: the target record is ranked first when no
earlier record contains all of its tokens. -/
theorem c2_amended_self_match_witness :
    (searchFallback c2wStore "hello world" 3 none).head? =
      some ⟨"hello world", [], "T", 1⟩ := by
  have h := c2_amended_self_match c2wStore 1 ⟨"T", "hello world", []⟩ 3 none rfl
    (by decide) rfl (by decide) ?_
  · exact h
  · intro j m hj hm hpass
    have hj0 : j = 0 := by omega
    subst hj0
    have hm0 : m = ⟨"Z", "zebra notes", []⟩ := by
      have : some (⟨"Z", "zebra notes", []⟩ : Mem) = some m := hm
      injection this with he
      exact he.symm
    subst hm0
    decide

/-! ### Claim C10: caller metadata overrides the reserved keys -/

theorem dget_dinsert_self : ∀ (d : List (String × String)) (k v : String),
    dget (dinsert d k v) k = some v := by
  intro d
  induction d with
  | nil =>
    intro k v
    simp [dinsert, dget]
  | cons p ps ih =>
    intro k v
    by_cases h : (p.1 == k) = true
    · simp [dinsert, h, dget]
    · have hb : (p.1 == k) = false := by
        simpa using h
      simp only [dinsert, hb, Bool.false_eq_true, if_false]
      simp only [dget, hb, Bool.false_eq_true, if_false]
      exact ih k v

theorem dget_dinsert_ne : ∀ (d : List (String × String)) (k0 v0 k : String), k ≠ k0 →
    dget (dinsert d k0 v0) k = dget d k := by
  intro d
  induction d with
  | nil =>
    intro k0 v0 k hne
    have hb : (k0 == k) = false := beq_eq_false_iff_ne.mpr (Ne.symm hne)
    simp [dinsert, dget, hb]
  | cons p ps ih =>
    intro k0 v0 k hne
    by_cases h : (p.1 == k0) = true
    · have hp : p.1 = k0 := by simpa using h
      have hb2 : (k0 == k) = false := beq_eq_false_iff_ne.mpr (Ne.symm hne)
      have hb3 : (p.1 == k) = false := by
        rw [hp]
        exact hb2
      simp [dinsert, h, dget, hb2, hb3]
    · have hb : (p.1 == k0) = false := by simpa using h
      simp only [dinsert, hb, Bool.false_eq_true, if_false]
      by_cases h2 : (p.1 == k) = true
      · simp [dget, h2]
      · have hb2 : (p.1 == k) = false := by simpa using h2
        simp only [dget, hb2, Bool.false_eq_true, if_false]
        exact ih k0 v0 k hne

theorem dget_dmerge_not_mem : ∀ (m base : List (String × String)) (k : String),
    (∀ q ∈ m, q.1 ≠ k) → dget (dmerge base m) k = dget base k := by
  intro m
  induction m with
  | nil =>
    intro base k _
    rfl
  | cons q qs ih =>
    intro base k hk
    show dget (dmerge (dinsert base q.1 q.2) qs) k = dget base k
    rw [ih (dinsert base q.1 q.2) k (fun r hr => hk r (List.mem_cons_of_mem q hr))]
    exact dget_dinsert_ne base q.1 q.2 k (Ne.symm (hk q (List.mem_cons_self q qs)))

theorem dget_dmerge : ∀ (m base : List (String × String)) (k v : String),
    (m.map Prod.fst).Nodup → dget m k = some v → dget (dmerge base m) k = some v := by
  intro m
  induction m with
  | nil =>
    intro base k v _ h
    simp [dget] at h
  | cons q qs ih =>
    intro base k v hnd hget
    have hnd2 : (qs.map Prod.fst).Nodup := (List.nodup_cons.mp (by simpa using hnd)).2
    have hhead : q.1 ∉ qs.map Prod.fst := (List.nodup_cons.mp (by simpa using hnd)).1
    show dget (dmerge (dinsert base q.1 q.2) qs) k = some v
    by_cases h : (q.1 == k) = true
    · have hk : q.1 = k := by simpa using h
      have hv : q.2 = v := by
        have hget2 : (if (q.1 == k) = true then some q.2 else dget qs k) = some v := hget
        rw [if_pos h] at hget2
        injection hget2
      have hknot : ∀ r ∈ qs, r.1 ≠ k := by
        intro r hr he
        apply hhead
        rw [hk, ← he]
        exact List.mem_map_of_mem Prod.fst hr
      rw [dget_dmerge_not_mem qs (dinsert base q.1 q.2) k hknot]
      rw [← hk, ← hv]
      exact dget_dinsert_self base q.1 q.2
    · have hb : (q.1 == k) = false := by simpa using h
      have hget2 : dget qs k = some v := by
        have hget3 : (if (q.1 == k) = true then some q.2 else dget qs k) = some v := hget
        rwa [if_neg h] at hget3
      exact ih (dinsert base q.1 q.2) k v hnd2 hget2

/-- Every result of a type-filtered fallback search carries exactly the
filter's type in its metadata. -/
theorem searchFallback_type_sound (store : List Mem) (q : String) (limit : Nat) (ty : String) :
    ∀ r ∈ searchFallback store q limit (some ty), dget r.metadata "type" = some ty := by
  intro r hr
  unfold searchFallback at hr
  obtain ⟨x, hx, hxr⟩ := List.mem_map.mp hr
  have hx2 : x ∈ sortDesc (scoreMems (tokenSet q) (some ty) 0 store) :=
    List.mem_of_mem_take hx
  have hx3 : x ∈ scoreMems (tokenSet q) (some ty) 0 store :=
    (sortDesc_perm _).mem_iff.mp hx2
  obtain ⟨j, m, h1, h2, h3, h4, h5, h6⟩ := scoreMems_sound (tokenSet q) (some ty) store 0 x hx3
  have hmty : dget m.metadata "type" = some ty := of_decide_eq_true h4
  rw [← hxr]
  show dget x.mem.metadata "type" = some ty
  rw [h3]
  exact hmty

/-- Claim C10, counterexample.  The claim's consequent ("such a record is not
returned by search_similar calls filtered by the declared memory_type") fails
when the caller-supplied `"type"` value EQUALS the declared memory type: here
the caller passes `{"type": "conversation"}` with declared type
"conversation", and the record IS returned (ranked first) by the filtered
search. -/
theorem c10_counterexample :
    (searchFallback (storeMemory ⟨[], []⟩ "hello world" "conversation"
        [("type", "conversation")] "default" "t0" "i0").1.store
      "hello world" 5 (some "conversation")).map SearchResult.id = ["conversation_t0"] := by
  decide

/-- Claim C10, amended.  `store_memory` spreads the caller's metadata last,
so the stored record's metadata takes the caller's value for every
caller-supplied key — including the reserved "type", "session_id" and
"timestamp" — and, WHEN the caller's "type" value differs from the declared
memory_type, the record is invisible to `search_similar` filtered by the
declared type: every filtered result carries the filter's type, which the
record's metadata does not. -/
theorem c10_amended_metadata_override (st : MState) (content mt : String)
    (md : List (String × String)) (sid tid tiso : String) :
    (storeMemory st content mt md sid tid tiso).1.store =
      st.store ++ [⟨mt ++ "_" ++ tid, content,
        dmerge [("type", mt), ("session_id", sid), ("timestamp", tiso)] md⟩] ∧
    ((md.map Prod.fst).Nodup → ∀ k v, dget md k = some v →
      dget (dmerge [("type", mt), ("session_id", sid), ("timestamp", tiso)] md) k = some v) ∧
    (∀ q limit r,
      r ∈ searchFallback (storeMemory st content mt md sid tid tiso).1.store q limit (some mt) →
      dget r.metadata "type" = some mt) ∧
    ((md.map Prod.fst).Nodup → ∀ v, dget md "type" = some v → v ≠ mt →
      ∀ q limit r,
        r ∈ searchFallback (storeMemory st content mt md sid tid tiso).1.store q limit (some mt) →
        r.metadata ≠ dmerge [("type", mt), ("session_id", sid), ("timestamp", tiso)] md) := by
  refine ⟨rfl, fun hnd k v hv => dget_dmerge md _ k v hnd hv,
    fun q limit r hr => searchFallback_type_sound _ q limit mt r hr,
    fun hnd v hv hvne q limit r hr hmeta => ?_⟩
  have h1 : dget r.metadata "type" = some mt :=
    searchFallback_type_sound _ q limit mt r hr
  have h2 : dget (dmerge [("type", mt), ("session_id", sid), ("timestamp", tiso)] md)
      "type" = some v := dget_dmerge md _ "type" v hnd hv
  rw [hmeta] at h1
  rw [h1] at h2
  apply hvne
  injection h2 with h2e
  exact h2e.symm

/-- Witness for the amended C10: the caller's "type" value wins the merge. -/
theorem c10_amended_metadata_override_witness :
    dget (dmerge [("type", "conversation"), ("session_id", "d"), ("timestamp", "i")]
      [("type", "essay")]) "type" = some "essay" :=
  (c10_amended_metadata_override ⟨[], []⟩ "hello" "conversation" [("type", "essay")]
    "d" "t" "i").2.1 (by decide) "type" "essay" rfl

end GradTrack
